import Mathlib

/-!
Shallow embedding of the Evaluator / Handler scheduling and layout-oscillation
engine and of the FileHandler write bookkeeping from `dedalus2/data/evaluator.py`.

Conventions used throughout:
* Python floats that carry times (`wall_time`, `sim_time`) are modelled as `ℚ`;
  iteration counts as `ℤ`; `np.inf` cadences are modelled as `none : Option ℚ`.
* Layouts are identified by their integer index, `0` = fully coefficient,
  `Lmax` = fully grid, exactly as `layout.index` in the source.
* The operator tree, field and HDF5 collaborators are external to the core
  (per the spec); they are abstracted by their observable behaviour: whether
  `attempt` succeeds at a given layout index, the layout of the field it
  returns, and the per-axis shape/start/constant data a field exposes.
* The unbounded `while tasks:` loop of `evaluate_handlers` is embedded with an
  explicit fuel argument counting executed transform rounds; a `none` result
  means the loop is still running after that many rounds.
-/

/-- Python `t // dt` as used for cadence divisors, where `dt` may be `np.inf`
(modelled by `none`).  For a finite divisor this is the rational floor; for an
infinite divisor CPython float floor-division yields `0` for nonnegative `t`
and `-1` for negative `t`. -/
def cdiv (t : ℚ) : Option ℚ → ℤ
  | none => if 0 ≤ t then 0 else -1
  | some dt => ⌊t / dt⌋

/-- Scheduling state of a `Handler`: the three cadence thresholds
(`wall_dt`, `sim_dt`, `iter`, default `np.inf` = `none`) and the divisors
recorded at the last firing (`last_wall_div`, `last_sim_div`, `last_iter_div`). -/
structure Sched where
  wall_dt : Option ℚ
  sim_dt : Option ℚ
  iter : Option ℚ
  last_wall_div : ℤ
  last_sim_div : ℤ
  last_iter_div : ℤ
deriving DecidableEq

/-- `Handler.__init__` scheduling defaults: infinite cadences and last
divisors `-1` (the source comment: initial divisors are set so that the
handler is scheduled at `sim_time, iteration = 0`). -/
def initSched : Sched := ⟨none, none, none, -1, -1, -1⟩

/-- The treatment of one handler inside `Evaluator.evaluate_scheduled`
(evaluator.py lines 78-92): compute the three cadence divisors, fire iff any
of them strictly exceeds the divisor recorded at the last evaluation, and on
firing record all three freshly computed divisors. -/
def schedStep (s : Sched) (wall_time sim_time : ℚ) (iteration : ℤ) : Bool × Sched :=
  let wall_div := cdiv wall_time s.wall_dt
  let sim_div := cdiv sim_time s.sim_dt
  let iter_div := cdiv (iteration : ℚ) s.iter
  if wall_div > s.last_wall_div ∨ sim_div > s.last_sim_div ∨ iter_div > s.last_iter_div then
    (true, { s with last_wall_div := wall_div, last_sim_div := sim_div, last_iter_div := iter_div })
  else
    (false, s)

/-- Run a sequence of `evaluate_scheduled` calls against one handler,
collecting the fired/not-fired decision of each call. -/
def runSchedule (s : Sched) : List (ℚ × ℚ × ℤ) → List Bool
  | [] => []
  | c :: rest =>
    (schedStep s c.1 c.2.1 c.2.2).1 :: runSchedule (schedStep s c.1 c.2.1 c.2.2).2 rest

/-- A handler with `sim_dt = 1.0` and the other two cadences at their default
`np.inf`, fresh from `Handler.__init__`. -/
def sDt1 : Sched := ⟨none, some 1, none, -1, -1, -1⟩

/-- The call sequence of the spec scenario: `sim_time = 0.0, 0.5, 1.0, 1.5, 2.2`
(wall time held at `0`, iteration counting up). -/
def scenarioCalls : List (ℚ × ℚ × ℤ) :=
  [(0, 0, 0), (0, 1/2, 1), (0, 1, 2), (0, 3/2, 3), (0, 11/5, 4)]

lemma schedStep_snd (s : Sched) (wt st : ℚ) (it : ℤ) :
    (schedStep s wt st it).2 =
      if (schedStep s wt st it).1 = true then
        { s with last_wall_div := cdiv wt s.wall_dt, last_sim_div := cdiv st s.sim_dt,
                 last_iter_div := cdiv (it : ℚ) s.iter }
      else s := by
  by_cases h : cdiv wt s.wall_dt > s.last_wall_div ∨ cdiv st s.sim_dt > s.last_sim_div ∨
      cdiv (it : ℚ) s.iter > s.last_iter_div
  · simp [schedStep, if_pos h]
  · simp [schedStep, if_neg h]

lemma scenario_step1 : schedStep sDt1 0 0 0 = (true, ⟨none, some 1, none, 0, 0, 0⟩) := by
  norm_num [schedStep, cdiv, sDt1]

lemma scenario_step2 :
    schedStep ⟨none, some 1, none, 0, 0, 0⟩ 0 2⁻¹ 1 = (false, ⟨none, some 1, none, 0, 0, 0⟩) := by
  norm_num [schedStep, cdiv, Int.floor_eq_zero_iff]

lemma scenario_step3 :
    schedStep ⟨none, some 1, none, 0, 0, 0⟩ 0 1 2 = (true, ⟨none, some 1, none, 0, 1, 0⟩) := by
  norm_num [schedStep, cdiv]

lemma scenario_step4 :
    schedStep ⟨none, some 1, none, 0, 1, 0⟩ 0 (3/2) 3 = (false, ⟨none, some 1, none, 0, 1, 0⟩) := by
  norm_num [schedStep, cdiv, Int.floor_eq_iff]

lemma scenario_step5 :
    schedStep ⟨none, some 1, none, 0, 1, 0⟩ 0 (11/5) 4 = (true, ⟨none, some 1, none, 0, 2, 0⟩) := by
  norm_num [schedStep, cdiv, Int.floor_eq_iff]

/-- Claim C1: under `Evaluator.evaluate_scheduled` a handler fires iff at least
one of the divisors `floor(wall_time/wall_dt)`, `floor(sim_time/sim_dt)`,
`floor(iteration/iter)` strictly exceeds the corresponding recorded
last-divisor; on firing all three recorded divisors are set to the freshly
computed values (on not firing they are unchanged); and a handler with
`sim_dt = 1.0` and the other cadences unset, called at
`sim_time = 0.0, 0.5, 1.0, 1.5, 2.2`, fires exactly at `0.0`, `1.0` and `2.2`. -/
theorem evaluate_scheduled_cadence (s : Sched) (wt st : ℚ) (it : ℤ) :
    ((schedStep s wt st it).1 = true ↔
      cdiv wt s.wall_dt > s.last_wall_div ∨ cdiv st s.sim_dt > s.last_sim_div ∨
        cdiv (it : ℚ) s.iter > s.last_iter_div)
    ∧ ((schedStep s wt st it).2 =
        if (schedStep s wt st it).1 = true then
          { s with last_wall_div := cdiv wt s.wall_dt, last_sim_div := cdiv st s.sim_dt,
                   last_iter_div := cdiv (it : ℚ) s.iter }
        else s)
    ∧ runSchedule sDt1 scenarioCalls = [true, false, true, false, true] := by
  refine ⟨?_, schedStep_snd s wt st it, ?_⟩
  · by_cases h : cdiv wt s.wall_dt > s.last_wall_div ∨ cdiv st s.sim_dt > s.last_sim_div ∨
        cdiv (it : ℚ) s.iter > s.last_iter_div
    · simp [schedStep, if_pos h, h]
    · simp [schedStep, if_neg h, h]
  · simp [runSchedule, scenarioCalls, scenario_step1, scenario_step2, scenario_step3,
      scenario_step4, scenario_step5]

/-- Witness for C1 at a concrete input. -/
theorem evaluate_scheduled_cadence_witness :
    ((schedStep sDt1 0 0 0).1 = true ↔
      cdiv 0 sDt1.wall_dt > sDt1.last_wall_div ∨ cdiv 0 sDt1.sim_dt > sDt1.last_sim_div ∨
        cdiv ((0 : ℤ) : ℚ) sDt1.iter > sDt1.last_iter_div) :=
  (evaluate_scheduled_cadence sDt1 0 0 0).1

/-- Counterexample to claim C4: a handler fresh from `Handler.__init__` that
leaves all three cadences at their default `np.inf` values nevertheless fires
on the first `evaluate_scheduled` call, because the divisors of the unset
channels evaluate to `0`, which strictly exceeds the initial recorded value
`-1`. -/
theorem default_handler_fires_first_call : (schedStep initSched 0 0 0).1 = true := by
  norm_num [schedStep, cdiv, initSched]

/-- Claim C4 (amended): an unset (infinite) cadence channel yields divisor `0`
at every nonnegative time, so it can trigger a firing only while the recorded
divisor is still the initial `-1`; in particular a handler with all three of
`wall_dt`, `sim_dt`, `iter` unset fires only on the very first
`evaluate_scheduled` call (which records divisors `0`) and never on any later
call. -/
theorem unset_cadence_never_refires (s : Sched) (wt st : ℚ) (it : ℤ)
    (hw : s.wall_dt = none) (hsim : s.sim_dt = none) (hit : s.iter = none)
    (lw : 0 ≤ s.last_wall_div) (ls : 0 ≤ s.last_sim_div) (li : 0 ≤ s.last_iter_div)
    (hwt : 0 ≤ wt) (hst : 0 ≤ st) (hi : 0 ≤ it) :
    (schedStep s wt st it).1 = false := by
  have hiq : (0 : ℚ) ≤ (it : ℚ) := by exact_mod_cast hi
  unfold schedStep
  rw [hw, hsim, hit]
  simp only [cdiv, if_pos hwt, if_pos hst, if_pos hiq]
  rw [if_neg]
  omega

/-- Witness for the amended C4: once an all-default handler has fired (all
recorded divisors `0`), the next call does not fire. -/
theorem unset_cadence_never_refires_witness :
    (schedStep ⟨none, none, none, 0, 0, 0⟩ 1 1 1).1 = false :=
  unset_cadence_never_refires ⟨none, none, none, 0, 0, 0⟩ 1 1 1 rfl rfl rfl
    (by norm_num) (by norm_num) (by norm_num) (by norm_num) (by norm_num) (by norm_num)

/-- Abstract view of a task's operator tree (an external collaborator of the
evaluator): whether `attempt` succeeds in the referenced fields' initial
layouts (`firstOk`), whether it succeeds once all referenced fields sit at a
given layout index (`resolveAt`), the layout index of the output field a
successful `attempt` returns (`outLayout`), and the layout the handler
requested for the task, `task['layout']` (`reqLayout`). -/
structure OpTask where
  firstOk : Bool
  resolveAt : ℕ → Bool
  outLayout : ℕ
  reqLayout : ℕ

/-- A task dictionary: its operator plus `task['out']`, recorded as the layout
index of the output field once `attempt` has succeeded (`none` while the task
is unfinished). -/
structure TaskState where
  op : OpTask
  out : Option ℕ

/-- The three handler variants (`process` behaviours) of the source. -/
inductive Sink where
  | dict
  | system
  | file
deriving DecidableEq

/-- A handler as seen by `evaluate_handlers`: scheduling state, optional group
name, `process` variant and task list. -/
structure HandlerM where
  sched : Sched
  group : Option String
  sink : Sink
  tasks : List TaskState

/-- One task's treatment in `Evaluator.attempt_tasks`: an unfinished task is
attempted and, on success, `task['out']` is set to the operator's output. -/
def attemptT (L : ℕ) (t : TaskState) : TaskState :=
  if t.out.isNone && t.op.resolveAt L then { t with out := some t.op.outLayout } else t

/-- `attempt_tasks` on the first pass of `evaluate_handlers`, with every field
still in its initial layout. -/
def firstT (t : TaskState) : TaskState :=
  if t.out.isNone && t.op.firstOk then { t with out := some t.op.outLayout } else t

/-- Apply a per-task transformation across all handlers (the flattened task
list of `evaluate_handlers` line 100, acting in place on the task dicts). -/
def mapTasks (f : TaskState → TaskState) (hs : List HandlerM) : List HandlerM :=
  hs.map fun h => { h with tasks := h.tasks.map f }

/-- The `while tasks:` guard: no unfinished task remains. -/
def allResolved (hs : List HandlerM) : Bool :=
  hs.all fun h => h.tasks.all fun t => t.out.isSome

/-- The layout-oscillation loop of `evaluate_handlers` (lines 109-127).  The
current layout index `L` starts at `0`; the direction is recomputed at the two
boundary indices `0` and `Lmax` only; each round transforms the fields one
step and re-attempts the unfinished tasks.  `fuel` bounds the number of
executed transform rounds; `none` means the loop is still running after
`fuel` rounds (the source loop itself is unbounded). -/
def oscLoop (Lmax : ℕ) : ℕ → ℕ → Bool → List HandlerM → Option (List HandlerM)
  | 0, _, _, hs => if allResolved hs then some hs else none
  | fuel + 1, L, up, hs =>
    if allResolved hs then some hs
    else
      oscLoop Lmax fuel
        (if (if L = 0 then true else if L = Lmax then false else up) then L + 1 else L - 1)
        (if L = 0 then true else if L = Lmax then false else up)
        (mapTasks
          (attemptT (if (if L = 0 then true else if L = Lmax then false else up) then L + 1 else L - 1))
          hs)

/-- Lines 99-132 of `evaluate_handlers`: attempt every task in the fields'
current layouts, force the fields to coefficient space (layout `0`) and
re-attempt, oscillate until all tasks are resolved, and finally transform
every output back to coefficient space to dealias. -/
def resolvePhase (Lmax fuel : ℕ) (hs : List HandlerM) : Option (List HandlerM) :=
  (oscLoop Lmax fuel 0 true (mapTasks (attemptT 0) (mapTasks firstT hs))).map
    (mapTasks fun t => { t with out := t.out.map fun _ => 0 })

/-- A handler's `process` step as far as output layouts are concerned:
`DictionaryHandler.process` and `FileHandler.process` begin by calling
`out.require_layout(task['layout'])` on every task; `SystemHandler.process`
only gathers and moves no output. -/
def processT (s : Sink) (t : TaskState) : TaskState :=
  match s with
  | Sink.dict => { t with out := t.out.map fun _ => t.op.reqLayout }
  | Sink.file => { t with out := t.out.map fun _ => t.op.reqLayout }
  | Sink.system => t

/-- `handler.process(...)` from line 136, restricted to its effect on task
output layouts. -/
def processH (h : HandlerM) : HandlerM :=
  { h with tasks := h.tasks.map (processT h.sink) }

/-- `Evaluator.evaluate_handlers`: resolution phase followed by each handler's
`process`. -/
def evaluate_handlers (Lmax fuel : ℕ) (hs : List HandlerM) : Option (List HandlerM) :=
  (resolvePhase Lmax fuel hs).map (List.map processH)

/-- The evaluator's handler registry. -/
structure EvaluatorM where
  handlers : List HandlerM

/-- `self.groups[group]`: the handlers registered under a group name, in
insertion order (`add_handler` appends each handler with a non-`None` group
to its group list). -/
def groupsOf (ev : EvaluatorM) (g : String) : List HandlerM :=
  ev.handlers.filter fun h => h.group == some g

/-- `Evaluator.evaluate_group`: evaluate all handlers of the group,
bypassing cadence entirely; the group's handlers are returned in their
post-evaluation state (the source mutates them in place). -/
def evaluate_group (Lmax fuel : ℕ) (ev : EvaluatorM) (g : String) : Option (List HandlerM) :=
  evaluate_handlers Lmax fuel (groupsOf ev g)

lemma allResolved_eq_true {hs : List HandlerM} :
    allResolved hs = true ↔ ∀ h ∈ hs, ∀ t ∈ h.tasks, t.out.isSome = true := by
  simp [allResolved, List.all_eq_true]

lemma oscLoop_of_allResolved {Lmax fuel L : ℕ} {up : Bool} {hs : List HandlerM}
    (h : allResolved hs = true) : oscLoop Lmax fuel L up hs = some hs := by
  cases fuel <;> simp [oscLoop, h]

lemma oscLoop_some_resolved {Lmax : ℕ} : ∀ {fuel L : ℕ} {up : Bool} {hs hs' : List HandlerM},
    oscLoop Lmax fuel L up hs = some hs' → allResolved hs' = true := by
  intro fuel
  induction fuel with
  | zero =>
    intro L up hs hs' h
    unfold oscLoop at h
    split at h
    · cases h; assumption
    · cases h
  | succ f ih =>
    intro L up hs hs' h
    unfold oscLoop at h
    split at h
    · cases h; assumption
    · exact ih h

lemma mem_mapTasks {f : TaskState → TaskState} {hs : List HandlerM} {h' : HandlerM}
    (hm : h' ∈ mapTasks f hs) :
    ∃ h ∈ hs, h' = { h with tasks := h.tasks.map f } := by
  simp only [mapTasks, List.mem_map] at hm
  obtain ⟨h, hh, rfl⟩ := hm
  exact ⟨h, hh, rfl⟩

lemma attemptT_out_none {L : ℕ} {t : TaskState} (h : (attemptT L t).out = none) :
    attemptT L t = t ∧ t.out = none ∧ t.op.resolveAt L = false := by
  by_cases hc : (t.out.isNone && t.op.resolveAt L) = true
  · exfalso
    unfold attemptT at h
    rw [if_pos hc] at h
    simp at h
  · unfold attemptT at h
    rw [if_neg hc] at h
    refine ⟨by rw [attemptT, if_neg hc], h, ?_⟩
    simpa [h] using hc

lemma firstT_out_none {t : TaskState} (h : (firstT t).out = none) :
    firstT t = t ∧ t.out = none ∧ t.op.firstOk = false := by
  by_cases hc : (t.out.isNone && t.op.firstOk) = true
  · exfalso
    unfold firstT at h
    rw [if_pos hc] at h
    simp at h
  · unfold firstT at h
    rw [if_neg hc] at h
    refine ⟨by rw [firstT, if_neg hc], h, ?_⟩
    simpa [h] using hc

/-- Invariant of the upward sweep: every still-unfinished task can resolve at
some layout index strictly above the current one and at most `Lmax`. -/
def PendingRes (L Lmax : ℕ) (hs : List HandlerM) : Prop :=
  ∀ h ∈ hs, ∀ t ∈ h.tasks, t.out = none →
    ∃ ℓ, L < ℓ ∧ ℓ ≤ Lmax ∧ t.op.resolveAt ℓ = true

lemma pendingRes_attempt {L Lmax : ℕ} {hs : List HandlerM}
    (h : PendingRes L Lmax hs) :
    PendingRes (L + 1) Lmax (mapTasks (attemptT (L + 1)) hs) := by
  intro h' hm t' tm hout
  obtain ⟨hh, hhm, rfl⟩ := mem_mapTasks hm
  have tm' : t' ∈ hh.tasks.map (attemptT (L + 1)) := tm
  obtain ⟨t, ht, rfl⟩ := List.mem_map.mp tm'
  obtain ⟨heq, hnone, hres⟩ := attemptT_out_none hout
  obtain ⟨ℓ, h1, h2, h3⟩ := h hh hhm t ht hnone
  rw [heq]
  have hne : ℓ ≠ L + 1 := by
    intro e
    rw [e, hres] at h3
    cases h3
  exact ⟨ℓ, by omega, h2, h3⟩

lemma pendingRes_allResolved {Lmax : ℕ} {hs : List HandlerM}
    (h : PendingRes Lmax Lmax hs) : allResolved hs = true := by
  rw [allResolved_eq_true]
  intro h' hm t tm
  cases ho : t.out with
  | none =>
    obtain ⟨ℓ, h1, h2, _⟩ := h h' hm t tm ho
    omega
  | some v => rfl

lemma oscLoop_up (Lmax : ℕ) : ∀ (n L fuel : ℕ) (hs : List HandlerM),
    L + n = Lmax → n ≤ fuel → PendingRes L Lmax hs →
    (oscLoop Lmax fuel L true hs).isSome = true := by
  intro n
  induction n with
  | zero =>
    intro L fuel hs hL _ hp
    have hLe : L = Lmax := by omega
    subst hLe
    rw [oscLoop_of_allResolved (pendingRes_allResolved hp)]
    rfl
  | succ n ih =>
    intro L fuel hs hL hf hp
    have hLlt : L < Lmax := by omega
    obtain ⟨f, rfl⟩ : ∃ f, fuel = f + 1 := ⟨fuel - 1, by omega⟩
    by_cases hres : allResolved hs = true
    · rw [oscLoop_of_allResolved hres]
      rfl
    · have hdir : (if L = 0 then true else if L = Lmax then false else true) = true := by
        by_cases h0 : L = 0 <;> simp [h0, hLlt.ne]
      unfold oscLoop
      rw [if_neg hres, hdir]
      simp only [if_true]
      exact ih (L + 1) f _ (by omega) (by omega) (pendingRes_attempt hp)

/-- One task that needs exactly two transform steps from coefficient space:
its operator resolves only at layout index `2`. -/
def twoStepOp : OpTask := ⟨false, fun ℓ => ℓ == 2, 2, 0⟩

/-- Handler holding the two-step task of the spec scenario. -/
def twoStepHandler : HandlerM := ⟨initSched, none, Sink.dict, [⟨twoStepOp, none⟩]⟩

/-- Claim C3: the resolution phase of `evaluate_handlers` attempts tasks in the
current layouts, then in coefficient space, then oscillates with direction
flips only at layout indices `0` and `Lmax` (this oscillation order is the
definition of `oscLoop`); any collection of tasks each resolvable either
immediately or at some layout index `≤ Lmax` is fully resolved within
`2 * Lmax` transform rounds; and a task resolvable exactly two transform steps
from coefficient space resolves in exactly two oscillation rounds — two rounds
of fuel succeed and one round does not. -/
theorem oscillation_resolves_within_bound (Lmax : ℕ) (hs : List HandlerM)
    (hres : ∀ h ∈ hs, ∀ t ∈ h.tasks, t.out = none →
      t.op.firstOk = true ∨ ∃ ℓ, ℓ ≤ Lmax ∧ t.op.resolveAt ℓ = true) :
    (resolvePhase Lmax (2 * Lmax) hs).isSome = true
    ∧ (resolvePhase 3 2 [twoStepHandler]).isSome = true
    ∧ resolvePhase 3 1 [twoStepHandler] = none := by
  refine ⟨?_, rfl, rfl⟩
  unfold resolvePhase
  have hp : PendingRes 0 Lmax (mapTasks (attemptT 0) (mapTasks firstT hs)) := by
    intro h' hm t' tm hout
    obtain ⟨h1, h1m, rfl⟩ := mem_mapTasks hm
    obtain ⟨h0, h0m, rfl⟩ := mem_mapTasks h1m
    have tm' : t' ∈ (h0.tasks.map firstT).map (attemptT 0) := tm
    obtain ⟨t1, ht1, rfl⟩ := List.mem_map.mp tm'
    obtain ⟨t0, ht0, rfl⟩ := List.mem_map.mp ht1
    obtain ⟨heq1, hnone1, hres0⟩ := attemptT_out_none hout
    obtain ⟨heq0, hnone0, hfirst⟩ := firstT_out_none hnone1
    rw [heq1, heq0]
    rcases hres h0 h0m t0 ht0 hnone0 with hf | ⟨ℓ, hle, hat⟩
    · rw [hfirst] at hf
      cases hf
    · have hne : ℓ ≠ 0 := by
        intro e
        rw [heq0] at hres0
        rw [e, hres0] at hat
        cases hat
      exact ⟨ℓ, by omega, hle, hat⟩
  have hsome := oscLoop_up Lmax Lmax 0 (2 * Lmax) _ (by omega) (by omega) hp
  obtain ⟨r, hr⟩ := Option.isSome_iff_exists.mp hsome
  rw [hr]
  rfl

/-- Witness for C3: a one-task evaluation whose task resolves on the first
attempt completes within the bound. -/
theorem oscillation_resolves_within_bound_witness :
    (resolvePhase 1 (2 * 1) [⟨initSched, none, Sink.dict,
        [⟨⟨true, fun _ => false, 0, 0⟩, none⟩]⟩]).isSome = true :=
  (oscillation_resolves_within_bound 1 _
    (by
      intro h hm t tm ho
      rw [List.mem_singleton] at hm
      subst hm
      rw [List.mem_singleton] at tm
      subst tm
      exact Or.inl rfl)).1

/-- An operator tree that can never resolve: `attempt` returns `None` in the
initial layouts and at every layout index. -/
def neverOp : OpTask := ⟨false, fun _ => false, 0, 0⟩

/-- A handler holding one never-resolvable task. -/
def neverHandler : HandlerM := ⟨initSched, none, Sink.dict, [⟨neverOp, none⟩]⟩

lemma mapTasks_attempt_never (L : ℕ) :
    mapTasks (attemptT L) [neverHandler] = [neverHandler] := rfl

lemma oscLoop_never : ∀ (Lmax fuel L : ℕ) (up : Bool),
    oscLoop Lmax fuel L up [neverHandler] = none := by
  intro Lmax fuel
  induction fuel with
  | zero => intro L up; rfl
  | succ f ih =>
    intro L up
    unfold oscLoop
    rw [if_neg (by decide), mapTasks_attempt_never]
    exact ih _ _

/-- Claim C2 evaluated against the code: `evaluate_handlers` applied to a
handler whose single task can never resolve in any layout does NOT stop — for
every number `fuel` of executed oscillation rounds the `while tasks:` loop is
still running (`none`), so no step bound is ever hit and no error is raised,
contrary to the spec's required failure semantics. -/
theorem evaluate_handlers_unresolvable_hangs (Lmax fuel : ℕ) :
    evaluate_handlers Lmax fuel [neverHandler] = none := by
  have h0 : mapTasks (attemptT 0) (mapTasks firstT [neverHandler]) = [neverHandler] := rfl
  unfold evaluate_handlers resolvePhase
  rw [h0, oscLoop_never]
  rfl

lemma resolvePhase_coeff {Lmax fuel : ℕ} {hs hs' : List HandlerM}
    (h : resolvePhase Lmax fuel hs = some hs') :
    ∀ h' ∈ hs', ∀ t ∈ h'.tasks, t.out = some 0 := by
  unfold resolvePhase at h
  cases e : oscLoop Lmax fuel 0 true (mapTasks (attemptT 0) (mapTasks firstT hs)) with
  | none => rw [e] at h; cases h
  | some r =>
    rw [e] at h
    have hr : hs' = mapTasks (fun t => { t with out := t.out.map fun _ => 0 }) r := by
      cases h; rfl
    subst hr
    have hres := oscLoop_some_resolved e
    intro h' hm t tm
    obtain ⟨h0, h0m, rfl⟩ := mem_mapTasks hm
    have tm' : t ∈ h0.tasks.map fun t => { t with out := t.out.map fun _ => 0 } := tm
    obtain ⟨t0, t0m, rfl⟩ := List.mem_map.mp tm'
    have hsome : t0.out.isSome = true := allResolved_eq_true.mp hres h0 h0m t0 t0m
    obtain ⟨v, hv⟩ := Option.isSome_iff_exists.mp hsome
    simp [hv]

/-- Claim C6: whenever the resolution phase of `evaluate_handlers` completes
(all tasks resolved), the dealiasing post-pass of lines 129-132 has forced
every task's output field into the fully-coefficient layout (index `0`)
before any handler's `process` runs. -/
theorem dealias_post_pass (Lmax fuel : ℕ) (hs hs' : List HandlerM)
    (h : resolvePhase Lmax fuel hs = some hs') :
    ∀ h' ∈ hs', ∀ t ∈ h'.tasks, t.out = some 0 :=
  resolvePhase_coeff h

/-- Task and handler used to witness C6: a system handler whose task resolves
on the first attempt with its output left at layout `2`. -/
def w6Op : OpTask := ⟨true, fun _ => false, 2, 0⟩

def w6Handler : HandlerM := ⟨initSched, none, Sink.system, [⟨w6Op, none⟩]⟩

def w6Handler' : HandlerM := ⟨initSched, none, Sink.system, [⟨w6Op, some 0⟩]⟩

/-- Witness for C6 at a concrete evaluation. -/
theorem dealias_post_pass_witness : (⟨w6Op, some 0⟩ : TaskState).out = some 0 :=
  dealias_post_pass 1 2 [w6Handler] [w6Handler'] rfl w6Handler'
    (List.mem_singleton.mpr rfl) ⟨w6Op, some 0⟩ (List.mem_singleton.mpr rfl)

/-- Does every task's `out` sit in the layout its handler requested? -/
def layoutCheck (hs : List HandlerM) : Bool :=
  hs.all fun h => h.tasks.all fun t => t.out == some t.op.reqLayout

/-- A dictionary handler whose single task resolves immediately and requests
grid layout (`task['layout']` index 1, the default `layout='g'` with
`Lmax = 1`). -/
def layoutOp : OpTask := ⟨true, fun _ => false, 1, 1⟩

def layoutHandler : HandlerM := ⟨initSched, none, Sink.dict, [⟨layoutOp, none⟩]⟩

/-- Counterexample to claim C5: at the moment `process` is invoked (right
after the dealiasing pass of `evaluate_handlers`), the task's `out` is in
coefficient space, not in the requested grid layout — the layout check over
the state handed to `process` is `false`. -/
theorem process_invoked_in_coeff_layout :
    (resolvePhase 1 2 [layoutHandler]).map layoutCheck = some false := rfl

/-- Claim C5 (amended): when `evaluate_handlers` invokes a handler's
`process`, every task's `out` is in coefficient space (index `0`), not in the
requested layout; the requested layout `task['layout']` is only established
inside `process` itself, whose first action per task in
`DictionaryHandler.process` and `FileHandler.process` is
`out.require_layout(task['layout'])` (while `SystemHandler.process` leaves the
output in coefficient space). -/
theorem process_requires_layout (Lmax fuel : ℕ) (hs hs' : List HandlerM)
    (h : resolvePhase Lmax fuel hs = some hs') :
    (∀ h' ∈ hs', ∀ t ∈ h'.tasks, t.out = some 0)
    ∧ ∀ h' ∈ hs', ∀ t ∈ (processH h').tasks,
        t.out = some (match h'.sink with
          | Sink.system => 0
          | Sink.dict => t.op.reqLayout
          | Sink.file => t.op.reqLayout) := by
  refine ⟨resolvePhase_coeff h, ?_⟩
  intro h' hm t tm
  have tm' : t ∈ h'.tasks.map (processT h'.sink) := tm
  obtain ⟨t0, t0m, rfl⟩ := List.mem_map.mp tm'
  have h0 : t0.out = some 0 := resolvePhase_coeff h h' hm t0 t0m
  cases hsink : h'.sink <;> simp [processT, hsink, h0]

/-- Task and handler used to witness the amended C5: a file handler whose task
requests layout `2`. -/
def w5Op : OpTask := ⟨true, fun _ => false, 3, 2⟩

def w5Handler : HandlerM := ⟨initSched, none, Sink.file, [⟨w5Op, none⟩]⟩

def w5Handler' : HandlerM := ⟨initSched, none, Sink.file, [⟨w5Op, some 0⟩]⟩

/-- Witness for the amended C5 at a concrete evaluation. -/
theorem process_requires_layout_witness : (⟨w5Op, some 2⟩ : TaskState).out = some 2 :=
  (process_requires_layout 1 1 [w5Handler] [w5Handler'] rfl).2 w5Handler'
    (List.mem_singleton.mpr rfl) ⟨w5Op, some 2⟩ (List.mem_singleton.mpr rfl)

lemma mapTasks_sched (f : TaskState → TaskState) (hs : List HandlerM) :
    (mapTasks f hs).map (fun h => h.sched) = hs.map (fun h => h.sched) := by
  unfold mapTasks
  rw [List.map_map]
  rfl

lemma oscLoop_sched {Lmax : ℕ} : ∀ {fuel L : ℕ} {up : Bool} {hs hs' : List HandlerM},
    oscLoop Lmax fuel L up hs = some hs' →
    hs'.map (fun h => h.sched) = hs.map (fun h => h.sched) := by
  intro fuel
  induction fuel with
  | zero =>
    intro L up hs hs' h
    unfold oscLoop at h
    split at h
    · cases h; rfl
    · cases h
  | succ f ih =>
    intro L up hs hs' h
    unfold oscLoop at h
    split at h
    · cases h; rfl
    · exact (ih h).trans (mapTasks_sched _ _)

lemma resolvePhase_sched {Lmax fuel : ℕ} {hs hs' : List HandlerM}
    (h : resolvePhase Lmax fuel hs = some hs') :
    hs'.map (fun h => h.sched) = hs.map (fun h => h.sched) := by
  unfold resolvePhase at h
  cases e : oscLoop Lmax fuel 0 true (mapTasks (attemptT 0) (mapTasks firstT hs)) with
  | none => rw [e] at h; cases h
  | some r =>
    rw [e] at h
    have hr : hs' = mapTasks (fun t => { t with out := t.out.map fun _ => 0 }) r := by
      cases h; rfl
    subst hr
    rw [mapTasks_sched, oscLoop_sched e, mapTasks_sched, mapTasks_sched]

lemma processList_sched (hs : List HandlerM) :
    (hs.map processH).map (fun h => h.sched) = hs.map (fun h => h.sched) := by
  rw [List.map_map]
  rfl

/-- Claim C10: `evaluate_group` evaluates the handlers registered under a
group without reading or updating any cadence state — the `Sched` record of
every handler in the group (thresholds and `last_*_div` counters) is
identical after the group-triggered evaluation, and consequently the
fire/not-fire decision any subsequent `evaluate_scheduled` call would make
for those handlers is unchanged. -/
theorem evaluate_group_preserves_cadence (Lmax fuel : ℕ) (ev : EvaluatorM) (g : String)
    (hs' : List HandlerM) (h : evaluate_group Lmax fuel ev g = some hs') :
    hs'.map (fun x => x.sched) = (groupsOf ev g).map (fun x => x.sched)
    ∧ ∀ (wt st : ℚ) (it : ℤ),
        hs'.map (fun x => (schedStep x.sched wt st it).1) =
          (groupsOf ev g).map (fun x => (schedStep x.sched wt st it).1) := by
  unfold evaluate_group evaluate_handlers at h
  cases e : resolvePhase Lmax fuel (groupsOf ev g) with
  | none => rw [e] at h; cases h
  | some r =>
    rw [e] at h
    have hr : hs' = r.map processH := by cases h; rfl
    subst hr
    have hsched : (r.map processH).map (fun x => x.sched) =
        (groupsOf ev g).map (fun x => x.sched) :=
      (processList_sched r).trans (resolvePhase_sched e)
    refine ⟨hsched, fun wt st it => ?_⟩
    have hcong := congrArg (List.map fun sc => (schedStep sc wt st it).1) hsched
    simpa [List.map_map, Function.comp] using hcong

/-- Group handler used to witness C10. -/
def w10Handler : HandlerM := ⟨sDt1, some "snapshots", Sink.dict, []⟩

def w10Ev : EvaluatorM := ⟨[w10Handler]⟩

/-- Witness for C10 at a concrete group evaluation. -/
theorem evaluate_group_preserves_cadence_witness :
    [w10Handler].map (fun x => x.sched) =
        (groupsOf w10Ev "snapshots").map (fun x => x.sched)
    ∧ [w10Handler].map (fun x => (schedStep x.sched 0 0 0).1) =
        (groupsOf w10Ev "snapshots").map (fun x => (schedStep x.sched 0 0 0).1) :=
  ⟨(evaluate_group_preserves_cadence 1 1 w10Ev "snapshots" [w10Handler] rfl).1,
   (evaluate_group_preserves_cadence 1 1 w10Ev "snapshots" [w10Handler] rfl).2 0 0 0⟩

/-- The write bookkeeping of a `FileHandler`: `max_writes` (`none` = the
default `np.inf`), the container sequence number `file_num`, the running
counters `total_write_num` / `file_write_num`, and whether a current container
exists (`current_path` is set). -/
structure FileHandlerState where
  max_writes : Option ℕ
  file_num : ℕ
  total_write_num : ℕ
  file_write_num : ℕ
  has_file : Bool
deriving DecidableEq

/-- `FileHandler.__init__`: `file_num = 0`, counters zero, no current file. -/
def initFile (mw : Option ℕ) : FileHandlerState := ⟨mw, 0, 0, 0, false⟩

/-- The write-count half of `check_file_limits`:
`(total_write_num % max_writes) == 0`, evaluated on the running counter.  With
`max_writes = np.inf` Python's `n % inf` equals `n`, so the test holds only
for `total_write_num = 0`. -/
def write_limit (fh : FileHandlerState) : Bool :=
  match fh.max_writes with
  | none => decide (fh.total_write_num = 0)
  | some m => decide (fh.total_write_num % m = 0)

/-- `FileHandler.check_file_limits`: write-count limit OR the (possibly
group-reduced) size limit, which is passed in because file sizes live outside
this model. -/
def check_file_limits (fh : FileHandlerState) (size_limit : Bool) : Bool :=
  write_limit fh || size_limit

/-- `FileHandler.new_file`: bump `file_num`, reset the per-file write counter,
and make the new container current. -/
def new_file (fh : FileHandlerState) : FileHandlerState :=
  { fh with file_num := fh.file_num + 1, file_write_num := 0, has_file := true }

/-- `FileHandler.get_file`: create a container on the first call, create a new
container when `check_file_limits` fires, otherwise reuse the current one.
The Boolean records whether a new container was created. -/
def get_file (fh : FileHandlerState) (size_limit : Bool) : FileHandlerState × Bool :=
  if !fh.has_file then (new_file fh, true)
  else if check_file_limits fh size_limit then (new_file fh, true)
  else (fh, false)

/-- `FileHandler.process`, restricted to its bookkeeping: fetch the file via
`get_file`, then increment `total_write_num` and `file_write_num`. -/
def processWrite (fh : FileHandlerState) (size_limit : Bool) : FileHandlerState × Bool :=
  ({ (get_file fh size_limit).1 with
      total_write_num := (get_file fh size_limit).1.total_write_num + 1,
      file_write_num := (get_file fh size_limit).1.file_write_num + 1 },
    (get_file fh size_limit).2)

/-- Iterate `process` calls with the size limit never reached. -/
def iterWrites (fh : FileHandlerState) : ℕ → FileHandlerState
  | 0 => fh
  | k + 1 => (processWrite (iterWrites fh k) false).1

/-- The new-container flags of the first `k` `process` calls. -/
def writeTrace (fh : FileHandlerState) : ℕ → List Bool
  | 0 => []
  | k + 1 => writeTrace fh k ++ [(processWrite (iterWrites fh k) false).2]

lemma get_file_fields (fh : FileHandlerState) (b : Bool) :
    (get_file fh b).1.total_write_num = fh.total_write_num
    ∧ (get_file fh b).1.has_file = true
    ∧ (get_file fh b).1.max_writes = fh.max_writes := by
  unfold get_file new_file
  cases hf : fh.has_file
  · simp [hf]
  · simp only [hf, Bool.not_true, Bool.false_eq_true, if_false]
    split <;> simp [hf]

lemma iterWrites_invariant (N : ℕ) : ∀ k,
    (iterWrites (initFile (some N)) k).total_write_num = k
    ∧ (iterWrites (initFile (some N)) k).has_file = decide (0 < k)
    ∧ (iterWrites (initFile (some N)) k).max_writes = some N := by
  intro k
  induction k with
  | zero => exact ⟨rfl, rfl, rfl⟩
  | succ k ih =>
    obtain ⟨h1, h2, h3⟩ := ih
    obtain ⟨g1, g2, g3⟩ := get_file_fields (iterWrites (initFile (some N)) k) false
    refine ⟨?_, ?_, ?_⟩
    · show (processWrite (iterWrites (initFile (some N)) k) false).1.total_write_num = k + 1
      simp [processWrite, g1, h1]
    · show (processWrite (iterWrites (initFile (some N)) k) false).1.has_file = decide (0 < k + 1)
      simp [processWrite, g2]
    · show (processWrite (iterWrites (initFile (some N)) k) false).1.max_writes = some N
      simp [processWrite, g3, h3]

lemma processWrite_flag (N k : ℕ) :
    ((processWrite (iterWrites (initFile (some N)) k) false).2 = true ↔ k % N = 0) := by
  obtain ⟨h1, h2, h3⟩ := iterWrites_invariant N k
  by_cases hk : k = 0
  · subst hk
    show (processWrite (initFile (some N)) false).2 = true ↔ 0 % N = 0
    simp [processWrite, get_file, initFile]
  · have h2' : (iterWrites (initFile (some N)) k).has_file = true := by
      rw [h2]
      simp [Nat.pos_of_ne_zero hk]
    have hcheck : check_file_limits (iterWrites (initFile (some N)) k) false =
        decide (k % N = 0) := by
      unfold check_file_limits write_limit
      rw [Bool.or_false]
      rw [h3, h1]
    unfold processWrite get_file
    rw [h2', hcheck]
    by_cases hkn : k % N = 0 <;> simp [hkn]

/-- Claim C7: for a `FileHandler` with finite `max_writes = N`, the running
counter equals the number of completed `process` calls, and the (k+1)-st call
creates a new container iff `k % N = 0` — i.e. exactly on the first write and
on writes `N+1, 2N+1, …`, because `check_file_limits` tests
`total_write_num % max_writes == 0` before the counter is incremented; with
`max_writes = 3`, nine successive `process` calls produce exactly three
containers (boundaries at writes 1, 4, 7) holding three writes each. -/
theorem file_write_rollover (N : ℕ) (_hN : 1 ≤ N) (k : ℕ) :
    (iterWrites (initFile (some N)) k).total_write_num = k
    ∧ ((processWrite (iterWrites (initFile (some N)) k) false).2 = true ↔ k % N = 0)
    ∧ writeTrace (initFile (some 3)) 9 =
        [true, false, false, true, false, false, true, false, false]
    ∧ (iterWrites (initFile (some 3)) 9).file_num = 3
    ∧ (iterWrites (initFile (some 3)) 9).file_write_num = 3 :=
  ⟨(iterWrites_invariant N k).1, processWrite_flag N k, by decide, by decide, by decide⟩

/-- Witness for C7 at a concrete input. -/
theorem file_write_rollover_witness :
    (iterWrites (initFile (some 3)) 5).total_write_num = 5 :=
  (file_write_rollover 3 (by decide) 5).1

/-- The size-limit value each process sees in `check_file_limits`: in parallel
mode its own local comparison, in independent (non-parallel) mode the
`MPI.LOR` all-reduce of every process's local `st_size >= max_size`
comparison. -/
def size_limit_reduced (parallel : Bool) (sizes : List ℕ) (max_size : ℕ) (p : ℕ) : Bool :=
  if parallel then decide (max_size ≤ sizes.getD p 0)
  else sizes.any fun s => decide (max_size ≤ s)

/-- Claim C9: in independent (non-parallel) mode the size limit entering
`check_file_limits` is the OR across all processes of the group of the local
condition `current container size >= max_size`; hence if any one process's
container is at least `max_size` after a write, every process of the group —
whatever its own container size and counters — creates a new container
(`file_num` increments) on its following `process` call. -/
theorem size_limit_group_rollover (sizes : List ℕ) (max_size p : ℕ)
    (fh : FileHandlerState) (hbig : ∃ s ∈ sizes, max_size ≤ s)
    (hf : fh.has_file = true) :
    (processWrite fh (size_limit_reduced false sizes max_size p)).1.file_num = fh.file_num + 1
    ∧ (processWrite fh (size_limit_reduced false sizes max_size p)).2 = true := by
  have hs : size_limit_reduced false sizes max_size p = true := by
    simp only [size_limit_reduced, Bool.false_eq_true, if_false, List.any_eq_true,
      decide_eq_true_eq]
    exact hbig
  have hc : check_file_limits fh (size_limit_reduced false sizes max_size p) = true := by
    rw [hs, check_file_limits, Bool.or_true]
  unfold processWrite get_file
  rw [hf, hc]
  simp [new_file]

/-- Witness for C9 at a concrete input: the second process of a two-process
group, whose own container is small, still rolls to the next container. -/
theorem size_limit_group_rollover_witness :
    (processWrite ⟨some 10, 4, 7, 2, true⟩ (size_limit_reduced false [0, 99] 64 1)).1.file_num
      = 5 :=
  (size_limit_group_rollover [0, 99] 64 1 ⟨some 10, 4, 7, 2, true⟩
    ⟨99, by decide, by decide⟩ rfl).1

/-- Per-axis data a distributed field exposes to `get_write_stats`: global
extent (`gshape`), local extent (`lshape`), local start offset (`start`), and
the constant (broadcast) mask entry. -/
structure AxisSpec where
  gshape : ℕ
  lshape : ℕ
  start : ℕ
  constant : Bool
deriving DecidableEq

/-- Per-axis result of `get_write_stats`. -/
structure AxisWrite where
  gnc_shape : ℕ
  gnc_start : ℕ
  write_shape : ℕ
  write_start : ℕ
  write_count : ℕ
deriving DecidableEq

/-- One axis of `FileHandler.get_write_stats` (the numpy code acts axiswise):
`first = (start == 0)`; counts keep just the first entry along constant axes;
the global noconstant shape collapses constant axes to `1`; the global
noconstant start is the skip sentinel `1` on constant non-first axes; in
parallel (collective) mode the write footprint is the global values, in
independent mode it is the local count with zero start. -/
def axisStats (parallel : Bool) (a : AxisSpec) : AxisWrite :=
  let first := decide (a.start = 0)
  let write_count := if a.constant && first then 1
    else if a.constant && !first then 0 else a.lshape
  let gnc_shape := if a.constant then 1 else a.gshape
  let gnc_start := if a.constant && !first then 1 else a.start
  if parallel then ⟨gnc_shape, gnc_start, gnc_shape, gnc_start, write_count⟩
  else ⟨gnc_shape, gnc_start, write_count, 0, write_count⟩

/-- `FileHandler.get_write_stats` over all axes of the output field. -/
def get_write_stats (parallel : Bool) (axes : List AxisSpec) : List AxisWrite :=
  axes.map (axisStats parallel)

lemma axisStats_count_pos {parallel : Bool} {a : AxisSpec}
    (hc : a.constant = true) (hpos : 0 < (axisStats parallel a).write_count) :
    a.start = 0 := by
  by_cases hs : a.start = 0
  · exact hs
  · exfalso
    unfold axisStats at hpos
    by_cases hp : parallel = true <;> simp [hc, hs, hp] at hpos

/-- Claim C8: `get_write_stats` computes, per axis: `write_count` is `1` on a
constant axis whose local start is `0`, `0` on a constant axis elsewhere, and
the full local extent otherwise; `global_nc_shape` is `1` on constant axes and
the global extent otherwise; `global_nc_start` is the skip sentinel `1` on
constant non-first axes and the local start otherwise; in parallel
(collective) mode `write_shape`/`write_start` are the global values while in
independent mode `write_shape = write_count` and `write_start = 0`; and on a
constant axis at most one process (the one with `start = 0`) has a positive
write count, so no two processes with distinct starts both write the
broadcast value. -/
theorem get_write_stats_characterization (parallel : Bool) (a : AxisSpec) :
    ((axisStats parallel a).write_count =
      if a.constant = true then (if a.start = 0 then 1 else 0) else a.lshape)
    ∧ ((axisStats parallel a).gnc_shape = if a.constant = true then 1 else a.gshape)
    ∧ ((axisStats parallel a).gnc_start =
      if a.constant = true ∧ a.start ≠ 0 then 1 else a.start)
    ∧ ((axisStats parallel a).write_shape =
      if parallel = true then (axisStats parallel a).gnc_shape
      else (axisStats parallel a).write_count)
    ∧ ((axisStats parallel a).write_start =
      if parallel = true then (axisStats parallel a).gnc_start else 0)
    ∧ get_write_stats parallel [a] = [axisStats parallel a]
    ∧ ∀ b : AxisSpec, a.constant = true → b.constant = true →
        0 < (axisStats parallel a).write_count → 0 < (axisStats parallel b).write_count →
        a.start = b.start := by
  refine ⟨?_, ?_, ?_, ?_, ?_, rfl, ?_⟩
  · unfold axisStats
    by_cases hc : a.constant = true <;> by_cases hs : a.start = 0 <;>
      by_cases hp : parallel = true <;> simp [hc, hs, hp]
  · unfold axisStats
    by_cases hc : a.constant = true <;> by_cases hs : a.start = 0 <;>
      by_cases hp : parallel = true <;> simp [hc, hs, hp]
  · unfold axisStats
    by_cases hc : a.constant = true <;> by_cases hs : a.start = 0 <;>
      by_cases hp : parallel = true <;> simp [hc, hs, hp]
  · unfold axisStats
    by_cases hp : parallel = true <;> simp [hp]
  · unfold axisStats
    by_cases hp : parallel = true <;> simp [hp]
  · intro b hca hcb hpa hpb
    rw [axisStats_count_pos hca hpa, axisStats_count_pos hcb hpb]

/-- Witness for C8 at concrete inputs: two processes sharing a constant axis,
one holding the first element and one not. -/
theorem get_write_stats_characterization_witness :
    (axisStats false ⟨8, 4, 0, true⟩).write_count =
        (if (⟨8, 4, 0, true⟩ : AxisSpec).constant = true
          then (if (⟨8, 4, 0, true⟩ : AxisSpec).start = 0 then 1 else 0)
          else (⟨8, 4, 0, true⟩ : AxisSpec).lshape)
    ∧ (⟨8, 4, 0, true⟩ : AxisSpec).start = (⟨8, 4, 0, true⟩ : AxisSpec).start :=
  ⟨(get_write_stats_characterization false ⟨8, 4, 0, true⟩).1,
   (get_write_stats_characterization false ⟨8, 4, 0, true⟩).2.2.2.2.2.2
      ⟨8, 4, 0, true⟩ rfl rfl (by decide) (by decide)⟩
